import Mathlib

/-!
Verification of the patch-explorer core: a shallow embedding of the
patch correlation and cross-version diff engine (src/src/Home.tsx and
src/src/App.tsx) together with proofs about its behaviour.

The embedding mirrors the TypeScript source: imperative forEach/push
loops become List.foldl with an accumulator, the JavaScript object
used for the filename-to-patches map becomes an insertion-ordered
association list, and the external diff2html / jsdiff library
(DiffCodec in the design) is an injected parameter.
-/

namespace PatchExplorer

/-- Line kind of one diff line, mirroring diff2html's LineType strings
"context" / "insert" / "delete". -/
inductive LineType where
  | context
  | insert
  | delete
deriving DecidableEq, Repr

/-- One line inside a hunk. The content string keeps its one-character
marker prefix, as in the source data model. -/
structure DiffLine where
  type : LineType
  content : String
deriving DecidableEq, Repr

/-- One hunk (block). The source accesses lines with the optional-chaining
operator, so the field is optional here as well. -/
structure DiffBlock where
  lines : Option (List DiffLine)
deriving DecidableEq, Repr

/-- One file's change inside one patch (diff2html's DiffFile as used by the
source). A missing or empty file name is modelled as none, matching the
truthiness test the source applies to newName. -/
structure FileDiff where
  oldName : Option String
  newName : Option String
  blocks : Option (List DiffBlock)
deriving DecidableEq, Repr

/-- One loaded patch file (the PatchFile interface of the source). -/
structure PatchFile where
  id : String
  name : String
  diffs : List FileDiff
deriving DecidableEq, Repr

/-! ## ContentReconstructor: getFileContent (Home.tsx lines 160-170) -/

/-- Predicate of the source's `line.type === 'delete' || line.type === 'insert'`
test. -/
def isChangeLine (line : DiffLine) : Bool :=
  line.type == LineType.delete || line.type == LineType.insert

/-- Embeds getFileContent from Home.tsx: walk blocks in order, walk lines in
order, push the de-prefixed content of every delete/insert line, join with
newline. The nested forEach/push loops become nested foldl over a list
accumulator. -/
def getFileContent (diff : FileDiff) : String :=
  let lines : List String :=
    (diff.blocks.getD []).foldl (fun ls block =>
      (block.lines.getD []).foldl (fun ls2 line =>
        if isChangeLine line then ls2 ++ [line.content.drop 1] else ls2) ls) []
  String.intercalate "\n" lines

/-- The de-prefixed insert/delete lines of a FileDiff, written declaratively
(hunks in order, lines in order, context lines skipped) for comparison with
the imperative loop of getFileContent. -/
def reconstructedLines (diff : FileDiff) : List String :=
  ((diff.blocks.getD []).map (fun block =>
    ((block.lines.getD []).filter isChangeLine).map (fun line =>
      line.content.drop 1))).flatten

/-! ## Registry: combined summary (Home.tsx lines 106-131, App.tsx 102-127) -/

/-- One update step of the JavaScript object commonFiles: if the key is
already present, push the patch name onto its list; otherwise create the
key at the end (JavaScript objects keep string-key insertion order). -/
def insertContribution (m : List (String × List String)) (key pname : String) :
    List (String × List String) :=
  if m.any (fun kv => kv.1 == key) then
    m.map (fun kv => if kv.1 == key then (kv.1, kv.2 ++ [pname]) else kv)
  else
    m ++ [(key, [pname])]

/-- Embeds the commonFiles construction of combinedSummary: for every patch
in load order and every FileDiff in parse order, if the diff has a (truthy)
newName, record the patch's name under that filename. -/
def computeCommonFiles (patchFiles : List PatchFile) : List (String × List String) :=
  patchFiles.foldl (fun m patchFile =>
    patchFile.diffs.foldl (fun m2 d =>
      match d.newName with
      | some nn => insertContribution m2 nn patchFile.name
      | none => m2) m) []

/-- Embeds the presentInAllPatches computation: keep the filenames whose
recorded patch-name list has the same length as the loaded patch list. -/
def presentInAllPatches (patchFiles : List PatchFile) : List String :=
  (computeCommonFiles patchFiles).foldl (fun acc kv =>
    if patchFiles.length = kv.2.length then acc ++ [kv.1] else acc) []

/-- Total number of FileDiff entries across all loaded patches whose newName
is the given filename, counted with multiplicity. -/
def newNameCount (patchFiles : List PatchFile) (f : String) : Nat :=
  (patchFiles.map (fun p => p.diffs.countP (fun d => d.newName == some f))).sum

/-! ## Local change summary: generateChangeSummary (App.tsx lines 25-49) -/

/-- The ChangeSummary record of the source. -/
structure ChangeSummary where
  totalFiles : Nat
  addedLines : Nat
  deletedLines : Nat
deriving DecidableEq, Repr

/-- Embeds generateChangeSummary from App.tsx: two counters walked over every
line of every block of every FileDiff of one patch, plus the entry count. -/
def generateChangeSummary (diffs : List FileDiff) : ChangeSummary :=
  let counts : Nat × Nat :=
    diffs.foldl (fun acc diff =>
      (diff.blocks.getD []).foldl (fun acc2 block =>
        (block.lines.getD []).foldl (fun acc3 line =>
          if line.type == LineType.insert then (acc3.1 + 1, acc3.2)
          else if line.type == LineType.delete then (acc3.1, acc3.2 + 1)
          else acc3) acc2) acc) (0, 0)
  { totalFiles := diffs.length, addedLines := counts.1, deletedLines := counts.2 }

/-- Number of lines of a given type across all hunks of all FileDiff entries
of one patch, written declaratively. -/
def lineTypeCount (diffs : List FileDiff) (t : LineType) : Nat :=
  (diffs.map (fun d =>
    ((d.blocks.getD []).map (fun b =>
      (b.lines.getD []).countP (fun l => l.type == t))).sum)).sum

/-! ## Upload capacity: handleFileUpload (Home.tsx 56-101, App.tsx 51-96) -/

/-- The one error of the upload capacity check. -/
inductive UploadError where
  | capacityExceeded
deriving DecidableEq, Repr

/-- Embeds the registry-state effect of handleFileUpload: an empty selection
returns early; a batch that would push the count past 5 sets the capacity
error and leaves the collection untouched; otherwise the whole batch is
appended at once (the source commits the batch in a single state update only
after every file of the batch has been read). The asynchronous file reads
themselves are outside this model; the batch argument stands for the
already-ingested PatchFile values. -/
def handleFileUpload (patchFiles : List PatchFile) (batch : List PatchFile) :
    List PatchFile × Option UploadError :=
  if batch.length = 0 then (patchFiles, none)
  else if patchFiles.length + batch.length > 5 then
    (patchFiles, some UploadError.capacityExceeded)
  else (patchFiles ++ batch, none)

/-! ## CrossVersionDiffer: the modal diff effect (Home.tsx lines 147-253) -/

/-- Character-level substring test: prefix check. Models the semantics of
JavaScript String.prototype.includes. -/
def isPrefixChars : List Char → List Char → Bool
  | [], _ => true
  | _ :: _, [] => false
  | a :: as, b :: bs => a == b && isPrefixChars as bs

/-- Character-level substring test: does the pattern occur at some position? -/
def containsAt (pat : List Char) : List Char → Bool
  | [] => isPrefixChars pat []
  | c :: cs => isPrefixChars pat (c :: cs) || containsAt pat cs

/-- s.includes(pat) of JavaScript, on Lean strings. -/
def containsSub (s pat : String) : Bool :=
  containsAt pat.data s.data

/-- Embeds the hasChanges test of Home.tsx line 186: the synthetic diff text
contains a hunk marker and contains a plus or a minus character. -/
def hasChangesOf (unifiedDiff : String) : Bool :=
  containsSub unifiedDiff "@@" && (containsSub unifiedDiff "+" || containsSub unifiedDiff "-")

/-- The external diff library (jsdiff's createTwoFilesPatch and diff2html's
parse), injected as the DiffCodec capability of the design: format builds
unified-diff text from two labels and two contents; parse may throw, which
is modelled as Except. -/
structure DiffCodec where
  format : String → String → String → String → String
  parse : String → Except Unit (List FileDiff)

/-- The match test of getFileDiffsFromAllPatches:
diff.newName === fileName || diff.oldName === fileName. -/
def matchesFileName (fileName : String) (d : FileDiff) : Bool :=
  d.newName == some fileName || d.oldName == some fileName

/-- Embeds getFileDiffsFromAllPatches from Home.tsx: for each loaded patch in
order, find the first FileDiff matching the filename on either side and push
(patch name, diff); patches without a match contribute nothing. -/
def getFileDiffsFromAllPatches (fileName : String) (patchFiles : List PatchFile) :
    List (String × FileDiff) :=
  patchFiles.foldl (fun acc patchFile =>
    match patchFile.diffs.find? (matchesFileName fileName) with
    | some matchingDiff => acc ++ [(patchFile.name, matchingDiff)]
    | none => acc) []

/-- Outcome of the pairwise comparison section of the modal: the no-changes
message, a rendered comparison diff, or the warning shown when parsing the
synthetic diff throws. -/
inductive ComparisonSection where
  | noChanges
  | changed
  | failed
deriving DecidableEq, Repr

/-- Observable outcome of one modal rendering pass: whether a comparison
section was produced (and which kind), and which (patch name, FileDiff)
pairs were rendered as individual diff views, in order. -/
structure CompareResult where
  comparison : Option ComparisonSection
  individuals : List (String × FileDiff)
deriving DecidableEq, Repr

/-- The body of the modal diff effect, after fileDiffs has been collected.
Mirrors Home.tsx lines 151-251: nothing is rendered for an empty collection;
for exactly two entries the contents are reconstructed, formatted into a
synthetic diff, and hasChanges decided — when false only the no-changes
message is shown (the individual renders sit under an if (hasChanges) guard),
when true the synthetic diff is parsed (throw gives the warning) and the
individual views are rendered; for any other count the individual views are
rendered with no comparison section. -/
def compareAux (codec : DiffCodec) (selectedFileName : String)
    (fileDiffs : List (String × FileDiff)) : CompareResult :=
  match fileDiffs with
  | [] => { comparison := none, individuals := [] }
  | [first, second] =>
    let firstContent := getFileContent first.2
    let secondContent := getFileContent second.2
    let unifiedDiff := codec.format
      (selectedFileName ++ " (" ++ first.1 ++ ")")
      (selectedFileName ++ " (" ++ second.1 ++ ")")
      firstContent secondContent
    if hasChangesOf unifiedDiff then
      match codec.parse unifiedDiff with
      | Except.ok _ => { comparison := some ComparisonSection.changed,
                         individuals := [first, second] }
      | Except.error _ => { comparison := some ComparisonSection.failed,
                            individuals := [first, second] }
    else
      { comparison := some ComparisonSection.noChanges, individuals := [] }
  | fds => { comparison := none, individuals := fds }

/-- The whole modal diff effect for one selected filename: collect the
contributing (patch name, FileDiff) pairs, then render. -/
def compare (codec : DiffCodec) (selectedFileName : String)
    (patchFiles : List PatchFile) : CompareResult :=
  compareAux codec selectedFileName (getFileDiffsFromAllPatches selectedFileName patchFiles)

/-! ## Helper lemmas -/

/-- The collection loop of getFileDiffsFromAllPatches, characterised: each
patch contributes the first matching FileDiff of its parse order, or nothing. -/
theorem getFileDiffsFromAllPatches_go (fileName : String) :
    ∀ (ps : List PatchFile) (acc : List (String × FileDiff)),
    (ps.foldl (fun acc patchFile =>
      match patchFile.diffs.find? (matchesFileName fileName) with
      | some matchingDiff => acc ++ [(patchFile.name, matchingDiff)]
      | none => acc) acc)
    = acc ++ ps.filterMap (fun p =>
        (p.diffs.find? (matchesFileName fileName)).map (fun d => (p.name, d)))
  | [], acc => by simp
  | p :: ps, acc => by
    cases h : p.diffs.find? (matchesFileName fileName) with
    | none =>
      simp only [List.foldl_cons, h, List.filterMap_cons, Option.map_none]
      exact getFileDiffsFromAllPatches_go fileName ps acc
    | some d =>
      simp only [List.foldl_cons, h, List.filterMap_cons, Option.map_some]
      rw [getFileDiffsFromAllPatches_go fileName ps (acc ++ [(p.name, d)])]
      simp

/-- getFileDiffsFromAllPatches as a filterMap over the loaded patches. -/
theorem getFileDiffsFromAllPatches_eq (fileName : String) (ps : List PatchFile) :
    getFileDiffsFromAllPatches fileName ps
    = ps.filterMap (fun p =>
        (p.diffs.find? (matchesFileName fileName)).map (fun d => (p.name, d))) := by
  rw [getFileDiffsFromAllPatches, getFileDiffsFromAllPatches_go]
  simp

/-- The inner line loop of getFileContent, characterised as filter-then-map. -/
theorem getFileContent_lines_go :
    ∀ (lines : List DiffLine) (acc : List String),
    (lines.foldl (fun ls2 line =>
      if isChangeLine line then ls2 ++ [line.content.drop 1] else ls2) acc)
    = acc ++ (lines.filter isChangeLine).map (fun l => l.content.drop 1)
  | [], acc => by simp
  | l :: ls, acc => by
    cases h : isChangeLine l with
    | false =>
      simp only [List.foldl_cons]
      rw [if_neg (by simp [h]), getFileContent_lines_go ls acc, List.filter_cons, h]
      simp
    | true =>
      simp only [List.foldl_cons]
      rw [if_pos h, getFileContent_lines_go ls (acc ++ [l.content.drop 1]),
        List.filter_cons, h]
      simp

/-- The outer block loop of getFileContent, characterised. -/
theorem getFileContent_blocks_go :
    ∀ (blocks : List DiffBlock) (acc : List String),
    (blocks.foldl (fun ls block =>
      (block.lines.getD []).foldl (fun ls2 line =>
        if isChangeLine line then ls2 ++ [line.content.drop 1] else ls2) ls) acc)
    = acc ++ (blocks.map (fun block =>
        ((block.lines.getD []).filter isChangeLine).map (fun l => l.content.drop 1))).flatten
  | [], acc => by simp
  | b :: bs, acc => by
    simp only [List.foldl_cons, List.map_cons, List.flatten_cons]
    rw [getFileContent_lines_go, getFileContent_blocks_go bs]
    simp

/-- getFileContent joins exactly the declaratively described change lines. -/
theorem getFileContent_eq (d : FileDiff) :
    getFileContent d = String.intercalate "\n" (reconstructedLines d) := by
  rw [getFileContent, reconstructedLines, getFileContent_blocks_go]
  simp

/-- First value stored under a key of the commonFiles map, empty when the
key is absent. -/
def getEntry (m : List (String × List String)) (f : String) : List String :=
  ((m.find? (fun kv => kv.1 == f)).map Prod.snd).getD []

/-- Effect of one insertContribution step on one key's stored list. -/
theorem getEntry_insertContribution (m : List (String × List String)) (k n f : String) :
    getEntry (insertContribution m k n) f
    = if f = k then getEntry m f ++ [n] else getEntry m f := by
  by_cases hany : m.any (fun kv => kv.1 == k)
  · rw [insertContribution, if_pos hany, getEntry, List.find?_map]
    have hcomp : ((fun kv : String × List String => kv.1 == f) ∘
        (fun kv => if kv.1 == k then (kv.1, kv.2 ++ [n]) else kv))
        = fun kv : String × List String => kv.1 == f := by
      funext kv
      by_cases h : kv.1 == k <;> simp [Function.comp, h]
    rw [hcomp]
    cases hf : m.find? (fun kv => kv.1 == f) with
    | none =>
      by_cases hfk : f = k
      · subst hfk
        rcases List.any_eq_true.mp hany with ⟨kv, hkv, hkvk⟩
        have := List.find?_eq_none.mp hf kv hkv
        simp_all
      · simp [getEntry, hf, hfk]
    | some kv =>
      have hkvf : kv.1 = f := by
        have := List.find?_some hf
        simpa using this
      by_cases hfk : f = k
      · subst hfk
        simp [getEntry, hf, hkvf]
      · simp [getEntry, hf, hkvf, hfk]
  · rw [insertContribution, if_neg hany, getEntry, List.find?_append]
    cases hf : m.find? (fun kv => kv.1 == f) with
    | none =>
      have hall := List.find?_eq_none.mp hf
      by_cases hfk : f = k
      · subst hfk
        simp [getEntry, hf]
      · have : ¬((k, [n]).1 == f) = true := by simp [Ne.symm hfk]
        simp [getEntry, hf, this, hfk]
    | some kv =>
      have hkvf : kv.1 = f := by
        have := List.find?_some hf
        simpa using this
      by_cases hfk : f = k
      · subst hfk
        have : m.any (fun kv => kv.1 == f) = true :=
          List.any_eq_true.mpr ⟨kv, List.mem_of_find?_eq_some hf, by simp [hkvf]⟩
        exact absurd this hany
      · simp [getEntry, hf, hfk]

/-- Effect of one patch's diff loop on one key's stored list: the patch's
name is appended once per FileDiff whose newName is the key. -/
theorem getEntry_diffs_go (pname f : String) :
    ∀ (diffs : List FileDiff) (m : List (String × List String)),
    getEntry (diffs.foldl (fun m2 d =>
      match d.newName with
      | some nn => insertContribution m2 nn pname
      | none => m2) m) f
    = getEntry m f ++ List.replicate (diffs.countP (fun d => d.newName == some f)) pname
  | [], m => by simp
  | d :: ds, m => by
    cases hd : d.newName with
    | none =>
      simp only [List.foldl_cons, hd]
      rw [getEntry_diffs_go pname f ds m, List.countP_cons]
      simp [hd]
    | some nn =>
      simp only [List.foldl_cons, hd]
      rw [getEntry_diffs_go pname f ds (insertContribution m nn pname),
        getEntry_insertContribution, List.countP_cons]
      by_cases hfn : f = nn
      · subst hfn
        rw [if_pos rfl]
        simp [List.replicate_succ, hd]
      · rw [if_neg hfn]
        simp [hd, Ne.symm hfn]

/-- Effect of the whole patch loop on one key's stored list. -/
theorem getEntry_patches_go (f : String) :
    ∀ (ps : List PatchFile) (m : List (String × List String)),
    getEntry (ps.foldl (fun m patchFile =>
      patchFile.diffs.foldl (fun m2 d =>
        match d.newName with
        | some nn => insertContribution m2 nn patchFile.name
        | none => m2) m) m) f
    = getEntry m f ++ (ps.map (fun p =>
        List.replicate (p.diffs.countP (fun d => d.newName == some f)) p.name)).flatten
  | [], m => by simp
  | p :: ps, m => by
    simp only [List.foldl_cons, List.map_cons, List.flatten_cons]
    rw [getEntry_patches_go f ps, getEntry_diffs_go]
    simp

/-- The list stored under a filename in commonFiles has one element per
contributing FileDiff, counted with multiplicity. -/
theorem getEntry_computeCommonFiles (ps : List PatchFile) (f : String) :
    (getEntry (computeCommonFiles ps) f).length = newNameCount ps f := by
  rw [computeCommonFiles, getEntry_patches_go]
  have h0 : getEntry [] f = [] := rfl
  rw [h0, List.nil_append, List.length_flatten, List.map_map, newNameCount]
  congr 1
  refine List.map_congr_left (fun p _ => ?_)
  simp [Function.comp]

/-- insertContribution keeps the key list unchanged when the key is present
and appends it at the end otherwise. -/
theorem keys_insertContribution (m : List (String × List String)) (k n : String) :
    (insertContribution m k n).map Prod.fst
    = if m.any (fun kv => kv.1 == k) then m.map Prod.fst else m.map Prod.fst ++ [k] := by
  by_cases hany : m.any (fun kv => kv.1 == k)
  · rw [insertContribution, if_pos hany, if_pos hany, List.map_map]
    refine List.map_congr_left (fun kv _ => ?_)
    by_cases h : kv.1 == k <;> simp [Function.comp, h]
  · rw [insertContribution, if_neg hany, if_neg hany]
    simp

/-- insertContribution preserves distinctness of the keys. -/
theorem keysNodup_insertContribution (m : List (String × List String)) (k n : String)
    (h : (m.map Prod.fst).Nodup) : ((insertContribution m k n).map Prod.fst).Nodup := by
  rw [keys_insertContribution]
  by_cases hany : m.any (fun kv => kv.1 == k)
  · rwa [if_pos hany]
  · rw [if_neg hany]
    have hk : k ∉ m.map Prod.fst := by
      intro hk
      rcases List.mem_map.mp hk with ⟨kv, hkv, hfst⟩
      have hkk : (kv.1 == k) = true := by simp [hfst]
      exact hany ((List.any_eq_true).mpr ⟨kv, hkv, hkk⟩)
    refine List.nodup_append.mpr ⟨h, List.nodup_singleton k, fun a ha hb => ?_⟩
    rw [List.mem_singleton] at hb
    exact hk (hb ▸ ha)

/-- The commonFiles map built by the source never holds two entries with
the same filename. -/
theorem keysNodup_computeCommonFiles (ps : List PatchFile) :
    ((computeCommonFiles ps).map Prod.fst).Nodup := by
  rw [computeCommonFiles]
  have inner : ∀ (diffs : List FileDiff) (pname : String)
      (m : List (String × List String)), (m.map Prod.fst).Nodup →
      ((diffs.foldl (fun m2 d =>
        match d.newName with
        | some nn => insertContribution m2 nn pname
        | none => m2) m).map Prod.fst).Nodup := by
    intro diffs pname
    induction diffs with
    | nil => intro m hm; simpa using hm
    | cons d ds ih =>
      intro m hm
      cases hd : d.newName with
      | none => simpa only [List.foldl_cons, hd] using ih m hm
      | some nn =>
        simpa only [List.foldl_cons, hd] using
          ih (insertContribution m nn pname) (keysNodup_insertContribution m nn pname hm)
  have outer : ∀ (qs : List PatchFile) (m : List (String × List String)),
      (m.map Prod.fst).Nodup →
      ((qs.foldl (fun m patchFile =>
        patchFile.diffs.foldl (fun m2 d =>
          match d.newName with
          | some nn => insertContribution m2 nn patchFile.name
          | none => m2) m) m).map Prod.fst).Nodup := by
    intro qs
    induction qs with
    | nil => intro m hm; simpa using hm
    | cons p qs ih =>
      intro m hm
      simpa only [List.foldl_cons] using ih _ (inner p.diffs p.name m hm)
  exact outer ps [] (by simp)

/-- With distinct keys, membership of an entry determines the find? result. -/
theorem find?_eq_of_mem_nodup :
    ∀ (m : List (String × List String)) (f : String) (l : List String),
    (m.map Prod.fst).Nodup → (f, l) ∈ m →
    m.find? (fun kv => kv.1 == f) = some (f, l)
  | [], _, _, _, hmem => by simp at hmem
  | kv :: m, f, l, hnd, hmem => by
    have hnd' : kv.1 ∉ m.map Prod.fst ∧ (m.map Prod.fst).Nodup := by
      rw [List.map_cons, List.nodup_cons] at hnd
      exact hnd
    rcases List.mem_cons.mp hmem with heq | htail
    · subst heq
      exact List.find?_cons_of_pos _ (by simp)
    · have hf : f ∈ m.map Prod.fst := List.mem_map.mpr ⟨(f, l), htail, rfl⟩
      have hne : ¬(kv.1 == f) = true := by
        intro hbeq
        exact hnd'.1 ((by simpa using hbeq : kv.1 = f) ▸ hf)
      rw [@List.find?_cons_of_neg _ (fun kv => kv.1 == f) kv m hne]
      exact find?_eq_of_mem_nodup m f l hnd'.2 htail

/-- Membership in the filtering loop that builds presentInAllPatches: the
filename must come from an entry whose list is exactly as long as the loaded
patch list. -/
theorem mem_presentInAll_go (L : Nat) :
    ∀ (m : List (String × List String)) (acc : List String) (f : String),
    (f ∈ m.foldl (fun acc kv =>
      if L = kv.2.length then acc ++ [kv.1] else acc) acc)
    ↔ f ∈ acc ∨ ∃ kv ∈ m, kv.1 = f ∧ L = kv.2.length
  | [], acc, f => by simp
  | kv :: m, acc, f => by
    by_cases h : L = kv.2.length
    · rw [List.foldl_cons, if_pos h, mem_presentInAll_go L m (acc ++ [kv.1]) f]
      constructor
      · rintro (hacc | hrest)
        · rcases List.mem_append.mp hacc with hacc | hone
          · exact Or.inl hacc
          · exact Or.inr ⟨kv, List.mem_cons_self _ _,
              ((by simpa using hone : f = kv.1)).symm, h⟩
        · rcases hrest with ⟨kv', hkv', hf, hL⟩
          exact Or.inr ⟨kv', List.mem_cons_of_mem _ hkv', hf, hL⟩
      · rintro (hacc | ⟨kv', hkv', hf, hL⟩)
        · exact Or.inl (List.mem_append_left _ hacc)
        · rcases List.mem_cons.mp hkv' with heq | htail
          · subst heq
            exact Or.inl (List.mem_append_right _ (by simp [hf]))
          · exact Or.inr ⟨kv', htail, hf, hL⟩
    · rw [List.foldl_cons, if_neg h, mem_presentInAll_go L m acc f]
      constructor
      · rintro (hacc | ⟨kv', hkv', hf, hL⟩)
        · exact Or.inl hacc
        · exact Or.inr ⟨kv', List.mem_cons_of_mem _ hkv', hf, hL⟩
      · rintro (hacc | ⟨kv', hkv', hf, hL⟩)
        · exact Or.inl hacc
        · rcases List.mem_cons.mp hkv' with heq | htail
          · subst heq
            exact absurd hL h
          · exact Or.inr ⟨kv', htail, hf, hL⟩

/-- The central characterisation of the source's presentInAllPatches: with at
least one loaded patch, a filename is listed exactly when its total number of
newName contributions, counted with multiplicity, equals the patch count. -/
theorem mem_presentInAllPatches_iff (ps : List PatchFile) (f : String) (hps : ps ≠ []) :
    f ∈ presentInAllPatches ps ↔ newNameCount ps f = ps.length := by
  rw [presentInAllPatches, mem_presentInAll_go]
  constructor
  · rintro (hacc | ⟨kv, hkv, hf, hL⟩)
    · simp at hacc
    · obtain ⟨k1, k2⟩ := kv
      simp only at hf hL
      have hmem : (f, k2) ∈ computeCommonFiles ps := by
        rw [← hf]
        exact hkv
      have hfind := find?_eq_of_mem_nodup _ f k2 (keysNodup_computeCommonFiles ps) hmem
      have hentry : getEntry (computeCommonFiles ps) f = k2 := by
        rw [getEntry, hfind]
        rfl
      rw [← getEntry_computeCommonFiles, hentry, hL]
  · intro hcount
    have hlen : (getEntry (computeCommonFiles ps) f).length = ps.length := by
      rw [getEntry_computeCommonFiles, hcount]
    cases hfind : (computeCommonFiles ps).find? (fun kv => kv.1 == f) with
    | none =>
      rw [getEntry, hfind] at hlen
      have hzero : ps.length = 0 := by simpa using hlen.symm
      exact absurd (List.length_eq_zero.mp hzero) hps
    | some kv =>
      have hentry : getEntry (computeCommonFiles ps) f = kv.2 := by
        rw [getEntry, hfind]
        rfl
      have hf : kv.1 = f := by
        have := List.find?_some hfind
        simpa using this
      refine Or.inr ⟨kv, List.mem_of_find?_eq_some hfind, hf, ?_⟩
      rw [← hlen, hentry]

/-- The line loop of generateChangeSummary increments the two counters by
the number of insert lines and the number of delete lines. -/
theorem changeSummary_lines_go :
    ∀ (lines : List DiffLine) (acc : Nat × Nat),
    (lines.foldl (fun acc3 line =>
      if line.type == LineType.insert then (acc3.1 + 1, acc3.2)
      else if line.type == LineType.delete then (acc3.1, acc3.2 + 1)
      else acc3) acc)
    = (acc.1 + lines.countP (fun l => l.type == LineType.insert),
       acc.2 + lines.countP (fun l => l.type == LineType.delete))
  | [], acc => by simp
  | l :: ls, acc => by
    simp only [List.foldl_cons]
    cases ht : l.type with
    | context =>
      rw [if_neg (by simp [ht]), if_neg (by simp [ht]),
        changeSummary_lines_go ls acc, List.countP_cons, List.countP_cons]
      simp [ht]
    | insert =>
      rw [if_pos (by simp [ht]), changeSummary_lines_go ls _,
        List.countP_cons, List.countP_cons]
      simp only [ht, Prod.mk.injEq]
      refine ⟨by simp; omega, by simp⟩
    | delete =>
      rw [if_neg (by simp [ht]), if_pos (by simp [ht]), changeSummary_lines_go ls _,
        List.countP_cons, List.countP_cons]
      simp only [ht, Prod.mk.injEq]
      refine ⟨by simp, by simp; omega⟩

/-- The block loop of generateChangeSummary, characterised. -/
theorem changeSummary_blocks_go :
    ∀ (blocks : List DiffBlock) (acc : Nat × Nat),
    (blocks.foldl (fun acc2 block =>
      (block.lines.getD []).foldl (fun acc3 line =>
        if line.type == LineType.insert then (acc3.1 + 1, acc3.2)
        else if line.type == LineType.delete then (acc3.1, acc3.2 + 1)
        else acc3) acc2) acc)
    = (acc.1 + (blocks.map (fun b =>
        (b.lines.getD []).countP (fun l => l.type == LineType.insert))).sum,
       acc.2 + (blocks.map (fun b =>
        (b.lines.getD []).countP (fun l => l.type == LineType.delete))).sum)
  | [], acc => by simp
  | b :: bs, acc => by
    simp only [List.foldl_cons]
    rw [changeSummary_lines_go, changeSummary_blocks_go bs]
    simp only [List.map_cons, List.sum_cons, Prod.mk.injEq]
    exact ⟨by omega, by omega⟩

/-- The diff loop of generateChangeSummary, characterised. -/
theorem changeSummary_diffs_go :
    ∀ (diffs : List FileDiff) (acc : Nat × Nat),
    (diffs.foldl (fun acc diff =>
      (diff.blocks.getD []).foldl (fun acc2 block =>
        (block.lines.getD []).foldl (fun acc3 line =>
          if line.type == LineType.insert then (acc3.1 + 1, acc3.2)
          else if line.type == LineType.delete then (acc3.1, acc3.2 + 1)
          else acc3) acc2) acc) acc)
    = (acc.1 + lineTypeCount diffs LineType.insert,
       acc.2 + lineTypeCount diffs LineType.delete)
  | [], acc => by simp [lineTypeCount]
  | d :: ds, acc => by
    simp only [List.foldl_cons]
    rw [changeSummary_blocks_go, changeSummary_diffs_go ds]
    simp only [lineTypeCount, List.map_cons, List.sum_cons, Prod.mk.injEq]
    exact ⟨by omega, by omega⟩

/-- generateChangeSummary computes the entry count and the two declarative
line counts. -/
theorem generateChangeSummary_eq (diffs : List FileDiff) :
    generateChangeSummary diffs
    = { totalFiles := diffs.length,
        addedLines := lineTypeCount diffs LineType.insert,
        deletedLines := lineTypeCount diffs LineType.delete } := by
  rw [generateChangeSummary, changeSummary_diffs_go]
  simp

/-- The label the source builds for one side of the synthetic diff. -/
def comparisonLabel (selectedFileName patchName : String) : String :=
  selectedFileName ++ " (" ++ patchName ++ ")"

/-- The synthetic unified diff the source builds in the two-contributor
branch. -/
def syntheticDiff (codec : DiffCodec) (selectedFileName : String)
    (a b : String × FileDiff) : String :=
  codec.format (comparisonLabel selectedFileName a.1) (comparisonLabel selectedFileName b.1)
    (getFileContent a.2) (getFileContent b.2)

/-- The two-contributor branch with hasChanges false: only the no-changes
message is produced and no individual view is rendered. -/
theorem compareAux_two_noChanges (codec : DiffCodec) (fn : String)
    (a b : String × FileDiff)
    (hc : hasChangesOf (syntheticDiff codec fn a b) = false) :
    compareAux codec fn [a, b]
    = { comparison := some ComparisonSection.noChanges, individuals := [] } := by
  simp only [compareAux, syntheticDiff, comparisonLabel] at hc ⊢
  rw [hc]
  simp

/-- The two-contributor branch with hasChanges true and a successful parse of
the synthetic diff. -/
theorem compareAux_two_changed (codec : DiffCodec) (fn : String)
    (a b : String × FileDiff) (parsed : List FileDiff)
    (hc : hasChangesOf (syntheticDiff codec fn a b) = true)
    (hp : codec.parse (syntheticDiff codec fn a b) = Except.ok parsed) :
    compareAux codec fn [a, b]
    = { comparison := some ComparisonSection.changed, individuals := [a, b] } := by
  simp only [compareAux, syntheticDiff, comparisonLabel] at hc hp ⊢
  rw [hc, hp]
  rfl

/-- The two-contributor branch with hasChanges true and a throwing parse:
the warning state plus both individual views. -/
theorem compareAux_two_failed (codec : DiffCodec) (fn : String)
    (a b : String × FileDiff)
    (hc : hasChangesOf (syntheticDiff codec fn a b) = true)
    (hp : codec.parse (syntheticDiff codec fn a b) = Except.error ()) :
    compareAux codec fn [a, b]
    = { comparison := some ComparisonSection.failed, individuals := [a, b] } := by
  simp only [compareAux, syntheticDiff, comparisonLabel] at hc hp ⊢
  rw [hc, hp]
  rfl

/-- Any contributor count other than 0 or 2 renders the collected pairs
individually with no comparison section. -/
theorem compareAux_other (codec : DiffCodec) (fn : String)
    (fds : List (String × FileDiff)) (h : fds.length = 1 ∨ 3 ≤ fds.length) :
    compareAux codec fn fds = { comparison := none, individuals := fds } := by
  match fds, h with
  | [a], _ => rfl
  | a :: b :: c :: rest, _ => rfl

/-! ## Concrete fixtures for witnesses and counterexamples -/

/-- A FileDiff naming the same file on both sides, with no hunks. -/
def fdNew (n : String) : FileDiff := ⟨some n, some n, some []⟩

/-- Two loaded patches that both touch the file "f" with identical (empty)
reconstructed content. -/
def twoPatches : List PatchFile :=
  [⟨"1", "A.patch", [fdNew "f"]⟩, ⟨"2", "B.patch", [fdNew "f"]⟩]

/-- Three loaded patches that all touch the file "g". -/
def threePatches : List PatchFile :=
  [⟨"1", "A.patch", [fdNew "g"]⟩, ⟨"2", "B.patch", [fdNew "g"]⟩,
    ⟨"3", "C.patch", [fdNew "g"]⟩]

/-- Five loaded patches, the capacity limit of the registry. -/
def fivePatches : List PatchFile :=
  [⟨"1", "P1", []⟩, ⟨"2", "P2", []⟩, ⟨"3", "P3", []⟩, ⟨"4", "P4", []⟩, ⟨"5", "P5", []⟩]

/-- A one-element batch, enough to cross the limit from five. -/
def sixthBatch : List PatchFile := [⟨"6", "P6", []⟩]

/-- One patch whose only FileDiff carries the file "z" as oldName only
(a fully deleted file). -/
def oldOnlyPatches : List PatchFile := [⟨"1", "A.patch", [⟨some "z", none, some []⟩]⟩]

/-- A diff codec whose format output has headers but no hunk marker, the
shape jsdiff's createTwoFilesPatch produces for identical contents. -/
def codecNoHunks : DiffCodec :=
  ⟨fun lo ln _ _ => "--- " ++ lo ++ "\n+++ " ++ ln ++ "\n", fun _ => Except.ok []⟩

/-- A diff codec whose format output has a hunk marker and change lines, and
whose parse succeeds. -/
def codecHunks : DiffCodec :=
  ⟨fun _ _ _ _ => "@@ -1 +1 @@\n-x\n+y\n", fun _ => Except.ok []⟩

/-- A diff codec whose format output has a hunk marker but whose parse
throws. -/
def codecHunksFail : DiffCodec :=
  ⟨fun _ _ _ _ => "@@ -1 +1 @@\n-x\n+y\n", fun _ => Except.error ()⟩

/-! ## The claims -/

/-- Claim C1, counterexample: a registry with exactly 2 contributing patches
whose reconstructed contents are identical. The comparison section does
report no changes, but the two per-patch individual diff views are NOT
rendered beneath it: the individuals list is empty, not of length 2. -/
theorem c1_counterexample :
    (getFileDiffsFromAllPatches "f" twoPatches).length = 2
    ∧ (compare codecNoHunks "f" twoPatches).comparison = some ComparisonSection.noChanges
    ∧ (compare codecNoHunks "f" twoPatches).individuals = [] := by
  decide

/-- Claim C1 (amended): with exactly 2 contributing patches and hasChanges
determined false, the comparison section reports no changes and no per-patch
individual diff view is rendered (the source guards the individual renders
with if hasChanges). -/
theorem c1_noChanges_hides_individuals (codec : DiffCodec) (fn : String)
    (ps : List PatchFile) (a b : String × FileDiff)
    (h : getFileDiffsFromAllPatches fn ps = [a, b])
    (hc : hasChangesOf (syntheticDiff codec fn a b) = false) :
    compare codec fn ps
    = { comparison := some ComparisonSection.noChanges, individuals := [] } := by
  rw [compare, h]
  exact compareAux_two_noChanges codec fn a b hc

/-- Claim C1, witness: the amended statement at the concrete two-patch
registry. -/
theorem c1_witness :
    compare codecNoHunks "f" twoPatches
    = { comparison := some ComparisonSection.noChanges, individuals := [] } :=
  c1_noChanges_hides_individuals codecNoHunks "f" twoPatches
    ("A.patch", fdNew "f") ("B.patch", fdNew "f") (by decide) (by decide)

/-- Claim C2, counterexample: patch A contributes the filename "x" twice,
patch B not at all; "x" is nevertheless listed in presentInAllPatches, so a
patch contributing the same filename twice does NOT count only once (the
source compares list lengths, multiset semantics). -/
theorem c2_counterexample :
    "x" ∈ presentInAllPatches [⟨"1", "A.patch", [fdNew "x", fdNew "x"]⟩,
      ⟨"2", "B.patch", [fdNew "y"]⟩]
    ∧ (∀ d ∈ (⟨"2", "B.patch", [fdNew "y"]⟩ : PatchFile).diffs,
        ¬ d.newName = some "x") := by
  decide

/-- Claim C2 (amended): a filename is in presentInAllPatches iff the total
number of FileDiff entries with that newName across all loaded patches,
counted with multiplicity, equals the number of loaded patches. -/
theorem c2_presentInAll_multiset (ps : List PatchFile) (f : String) (hps : ps ≠ []) :
    f ∈ presentInAllPatches ps ↔ newNameCount ps f = ps.length :=
  mem_presentInAllPatches_iff ps f hps

/-- Claim C2, witness: the amended characterisation at a concrete registry. -/
theorem c2_witness :
    "f" ∈ presentInAllPatches twoPatches ↔ newNameCount twoPatches "f" = twoPatches.length :=
  c2_presentInAll_multiset twoPatches "f" (by decide)

/-- Claim C4: getFileContent iterates hunks and lines in order, joining the
de-prefixed content of every insert-or-delete line with newline separators
and skipping context lines (the declarative reconstructedLines), and a
FileDiff with absent or empty blocks reconstructs to the empty string. The
function is a pure Lean definition, hence deterministic. -/
theorem c4_reconstruct (d : FileDiff) :
    getFileContent d = String.intercalate "\n" (reconstructedLines d)
    ∧ ((d.blocks = none ∨ d.blocks = some []) → getFileContent d = "") := by
  refine ⟨getFileContent_eq d, fun h => ?_⟩
  rcases h with h | h <;> simp [getFileContent, h] <;> rfl

/-- Claim C4, witness: a FileDiff with absent blocks reconstructs to "". -/
theorem c4_witness : getFileContent ⟨some "f", some "f", none⟩ = "" :=
  (c4_reconstruct ⟨some "f", some "f", none⟩).2 (Or.inl rfl)

/-- Claim C5, counterexample: "x" appears as the newName of a FileDiff in
every loaded patch, yet it is not in presentInAllPatches, because one patch
contributes it twice and the source counts contributions, not patches. -/
theorem c5_counterexample :
    (∀ p ∈ [⟨"1", "A.patch", [fdNew "x", fdNew "x"]⟩,
      (⟨"2", "B.patch", [fdNew "x"]⟩ : PatchFile)], ∃ d ∈ p.diffs, d.newName = some "x")
    ∧ "x" ∉ presentInAllPatches [⟨"1", "A.patch", [fdNew "x", fdNew "x"]⟩,
      ⟨"2", "B.patch", [fdNew "x"]⟩] := by
  decide

/-- Claim C5 (amended): only newName participates in correlation — a file
never appearing as any FileDiff's newName is never in presentInAllPatches;
and every filename appearing as the newName of exactly one FileDiff in every
loaded patch does appear there. -/
theorem c5_newName_only (ps : List PatchFile) (f : String) :
    ((∀ p ∈ ps, ∀ d ∈ p.diffs, d.newName ≠ some f) → f ∉ presentInAllPatches ps)
    ∧ (ps ≠ [] → (∀ p ∈ ps, p.diffs.countP (fun d => d.newName == some f) = 1) →
        f ∈ presentInAllPatches ps) := by
  constructor
  · intro h hf
    by_cases hps : ps = []
    · subst hps
      simp [presentInAllPatches, computeCommonFiles] at hf
    · have hcount : newNameCount ps f = 0 := by
        rw [newNameCount]
        refine List.sum_eq_zero (fun x hx => ?_)
        rcases List.mem_map.mp hx with ⟨p, hp, rfl⟩
        exact List.countP_eq_zero.mpr (fun d hd => by simp [h p hp d hd])
      have := (mem_presentInAllPatches_iff ps f hps).mp hf
      rw [hcount] at this
      exact hps (List.length_eq_zero.mp this.symm)
  · intro hps h1
    refine (mem_presentInAllPatches_iff ps f hps).mpr ?_
    rw [newNameCount, List.map_congr_left h1]
    simp

/-- Claim C5, witness: a file present via oldName only is excluded, and a
file contributed exactly once by each patch is included. -/
theorem c5_witness :
    "z" ∉ presentInAllPatches oldOnlyPatches ∧ "f" ∈ presentInAllPatches twoPatches :=
  ⟨(c5_newName_only oldOnlyPatches "z").1 (by decide),
    (c5_newName_only twoPatches "f").2 (by decide) (by decide)⟩

/-- Claim C3: in the 2-contributor branch, hasChanges is true (the section is
changed or failed and both individual views are rendered) iff the synthetic
diff text contains a hunk marker and a plus or minus character; it is false
(the section reports no changes) iff that condition fails. -/
theorem c3_hasChanges_iff (codec : DiffCodec) (fn : String) (ps : List PatchFile)
    (a b : String × FileDiff) (h : getFileDiffsFromAllPatches fn ps = [a, b]) :
    ((compare codec fn ps).individuals = [a, b]
      ↔ (containsSub (syntheticDiff codec fn a b) "@@" = true
        ∧ (containsSub (syntheticDiff codec fn a b) "+" = true
          ∨ containsSub (syntheticDiff codec fn a b) "-" = true)))
    ∧ ((compare codec fn ps).comparison = some ComparisonSection.noChanges
      ↔ ¬ (containsSub (syntheticDiff codec fn a b) "@@" = true
        ∧ (containsSub (syntheticDiff codec fn a b) "+" = true
          ∨ containsSub (syntheticDiff codec fn a b) "-" = true))) := by
  have hcond : hasChangesOf (syntheticDiff codec fn a b) = true
      ↔ (containsSub (syntheticDiff codec fn a b) "@@" = true
        ∧ (containsSub (syntheticDiff codec fn a b) "+" = true
          ∨ containsSub (syntheticDiff codec fn a b) "-" = true)) := by
    rw [hasChangesOf, Bool.and_eq_true, Bool.or_eq_true]
  cases hc : hasChangesOf (syntheticDiff codec fn a b) with
  | false =>
    rw [compare, h, compareAux_two_noChanges codec fn a b hc]
    constructor
    · constructor
      · intro hx
        simp at hx
      · intro hx
        exact absurd (hcond.mpr hx) (by simp [hc])
    · simp only [true_iff]
      intro hx
      exact absurd (hcond.mpr hx) (by simp [hc])
  | true =>
    have hx := hcond.mp hc
    rw [compare, h]
    cases hp : codec.parse (syntheticDiff codec fn a b) with
    | ok parsed =>
      rw [compareAux_two_changed codec fn a b parsed hc hp]
      exact ⟨by simpa using hx, by simp [hx]⟩
    | error e =>
      rw [compareAux_two_failed codec fn a b hc (by rw [hp])]
      exact ⟨by simpa using hx, by simp [hx]⟩

/-- Claim C3, witness: at a concrete codec whose synthetic diff has a hunk
marker and change characters, the comparison runs and renders both
individual views. -/
theorem c3_witness :
    ((compare codecHunks "f" twoPatches).individuals
        = [("A.patch", fdNew "f"), ("B.patch", fdNew "f")]
      ↔ (containsSub (syntheticDiff codecHunks "f" ("A.patch", fdNew "f")
          ("B.patch", fdNew "f")) "@@" = true
        ∧ (containsSub (syntheticDiff codecHunks "f" ("A.patch", fdNew "f")
            ("B.patch", fdNew "f")) "+" = true
          ∨ containsSub (syntheticDiff codecHunks "f" ("A.patch", fdNew "f")
              ("B.patch", fdNew "f")) "-" = true)))
    ∧ ((compare codecHunks "f" twoPatches).comparison = some ComparisonSection.noChanges
      ↔ ¬ (containsSub (syntheticDiff codecHunks "f" ("A.patch", fdNew "f")
          ("B.patch", fdNew "f")) "@@" = true
        ∧ (containsSub (syntheticDiff codecHunks "f" ("A.patch", fdNew "f")
            ("B.patch", fdNew "f")) "+" = true
          ∨ containsSub (syntheticDiff codecHunks "f" ("A.patch", fdNew "f")
              ("B.patch", fdNew "f")) "-" = true))) :=
  c3_hasChanges_iff codecHunks "f" twoPatches ("A.patch", fdNew "f")
    ("B.patch", fdNew "f") (by decide)

/-- Claim C6: a nonempty batch fails with the capacity error exactly when the
current count plus the batch size exceeds 5, and on that error the registry
holds exactly the same PatchSets as before. -/
theorem c6_capacity (ps batch : List PatchFile) (hb : batch ≠ []) :
    ((handleFileUpload ps batch).2 = some UploadError.capacityExceeded
      ↔ ps.length + batch.length > 5)
    ∧ ((handleFileUpload ps batch).2 = some UploadError.capacityExceeded
      → (handleFileUpload ps batch).1 = ps) := by
  rw [handleFileUpload, if_neg (by simpa using hb)]
  by_cases hcap : ps.length + batch.length > 5
  · rw [if_pos hcap]
    exact ⟨⟨fun _ => hcap, fun _ => rfl⟩, fun _ => rfl⟩
  · rw [if_neg hcap]
    exact ⟨by simp [hcap], by simp⟩

/-- Claim C6, witness: submitting a sixth patch to a full registry of five is
rejected wholesale, leaving the five untouched. -/
theorem c6_witness :
    ((handleFileUpload fivePatches sixthBatch).2 = some UploadError.capacityExceeded
      ↔ fivePatches.length + sixthBatch.length > 5)
    ∧ ((handleFileUpload fivePatches sixthBatch).2 = some UploadError.capacityExceeded
      → (handleFileUpload fivePatches sixthBatch).1 = fivePatches) :=
  c6_capacity fivePatches sixthBatch (by decide)

/-- Claim C7: the collection step yields one (patchName, first matching
FileDiff) entry per patch matching on newName or oldName, in load order; and
with 1 or 3-or-more contributors the pairwise step is skipped and all
contributors are rendered individually. -/
theorem c7_non_pairwise (codec : DiffCodec) (fn : String) (ps : List PatchFile)
    (h : (getFileDiffsFromAllPatches fn ps).length = 1
      ∨ 3 ≤ (getFileDiffsFromAllPatches fn ps).length) :
    compare codec fn ps
      = { comparison := none, individuals := getFileDiffsFromAllPatches fn ps }
    ∧ getFileDiffsFromAllPatches fn ps
      = ps.filterMap (fun p =>
          (p.diffs.find? (matchesFileName fn)).map (fun d => (p.name, d))) :=
  ⟨by rw [compare]; exact compareAux_other codec fn _ h,
    getFileDiffsFromAllPatches_eq fn ps⟩

/-- Claim C7, witness: three contributing patches give three individual
renders in load order and no pairwise comparison. -/
theorem c7_witness :
    compare codecHunks "g" threePatches
      = { comparison := none, individuals := getFileDiffsFromAllPatches "g" threePatches }
    ∧ getFileDiffsFromAllPatches "g" threePatches
      = threePatches.filterMap (fun p =>
          (p.diffs.find? (matchesFileName "g")).map (fun d => (p.name, d))) :=
  c7_non_pairwise codecHunks "g" threePatches (Or.inr (by decide))

/-- Claim C8: when the synthetic diff reports changes but parsing it throws,
the operation does not abort: the warning state (comparison unavailable) is
surfaced and both contributing patches' individual diff views are still
rendered. -/
theorem c8_parse_failure_degrades (codec : DiffCodec) (fn : String)
    (ps : List PatchFile) (a b : String × FileDiff)
    (h : getFileDiffsFromAllPatches fn ps = [a, b])
    (hc : hasChangesOf (syntheticDiff codec fn a b) = true)
    (hp : codec.parse (syntheticDiff codec fn a b) = Except.error ()) :
    compare codec fn ps
    = { comparison := some ComparisonSection.failed, individuals := [a, b] } := by
  rw [compare, h]
  exact compareAux_two_failed codec fn a b hc hp

/-- Claim C8, witness: a throwing parse at a concrete two-patch registry
still renders both individual views. -/
theorem c8_witness :
    compare codecHunksFail "f" twoPatches
    = { comparison := some ComparisonSection.failed,
        individuals := [("A.patch", fdNew "f"), ("B.patch", fdNew "f")] } :=
  c8_parse_failure_degrades codecHunksFail "f" twoPatches
    ("A.patch", fdNew "f") ("B.patch", fdNew "f") (by decide) (by decide) rfl

/-- Claim C9: for every PatchSet, the summary reports the number of FileDiff
entries and the total insert and delete line counts across all hunks of that
one patch. -/
theorem c9_summarize (p : PatchFile) :
    generateChangeSummary p.diffs
    = { totalFiles := p.diffs.length,
        addedLines := lineTypeCount p.diffs LineType.insert,
        deletedLines := lineTypeCount p.diffs LineType.delete } :=
  generateChangeSummary_eq p.diffs

/-- Claim C10: a patch contributes at most one FileDiff — the first match in
parse order — and everything after that first match never influences the
collection, the comparison or the individual renders. -/
theorem c10_first_match_only (codec : DiffCodec) (fn : String)
    (ps1 ps2 : List PatchFile) (pid pname : String)
    (pre post post' : List FileDiff) (d : FileDiff)
    (hpre : ∀ d' ∈ pre, matchesFileName fn d' = false)
    (hd : matchesFileName fn d = true) :
    (pre ++ d :: post).find? (matchesFileName fn) = some d
    ∧ getFileDiffsFromAllPatches fn (ps1 ++ ⟨pid, pname, pre ++ d :: post⟩ :: ps2)
      = getFileDiffsFromAllPatches fn (ps1 ++ ⟨pid, pname, pre ++ d :: post'⟩ :: ps2)
    ∧ compare codec fn (ps1 ++ ⟨pid, pname, pre ++ d :: post⟩ :: ps2)
      = compare codec fn (ps1 ++ ⟨pid, pname, pre ++ d :: post'⟩ :: ps2) := by
  have hfind : ∀ rest : List FileDiff,
      (pre ++ d :: rest).find? (matchesFileName fn) = some d := by
    intro rest
    rw [List.find?_append,
      List.find?_eq_none.mpr (fun x hx => by simp [hpre x hx]),
      List.find?_cons_of_pos _ hd]
    rfl
  have hg : getFileDiffsFromAllPatches fn (ps1 ++ ⟨pid, pname, pre ++ d :: post⟩ :: ps2)
      = getFileDiffsFromAllPatches fn (ps1 ++ ⟨pid, pname, pre ++ d :: post'⟩ :: ps2) := by
    rw [getFileDiffsFromAllPatches_eq, getFileDiffsFromAllPatches_eq,
      List.filterMap_append, List.filterMap_append,
      List.filterMap_cons, List.filterMap_cons]
    have hmid : (⟨pid, pname, pre ++ d :: post⟩ : PatchFile).diffs.find?
        (matchesFileName fn) = some d := hfind post
    have hmid' : (⟨pid, pname, pre ++ d :: post'⟩ : PatchFile).diffs.find?
        (matchesFileName fn) = some d := hfind post'
    rw [hmid, hmid']
  exact ⟨hfind post, hg, by rw [compare, compare, hg]⟩

/-- Claim C10, witness: a patch holding a non-matching diff, then a matching
diff, then a second matching diff yields the same collection and comparison
as the same patch with the trailing match removed. -/
theorem c10_witness :
    ([fdNew "q"] ++ fdNew "f" :: [fdNew "f"]).find? (matchesFileName "f")
      = some (fdNew "f")
    ∧ getFileDiffsFromAllPatches "f"
        ([] ++ ⟨"1", "A.patch", [fdNew "q"] ++ fdNew "f" :: [fdNew "f"]⟩ :: [])
      = getFileDiffsFromAllPatches "f"
        ([] ++ ⟨"1", "A.patch", [fdNew "q"] ++ fdNew "f" :: []⟩ :: [])
    ∧ compare codecHunks "f"
        ([] ++ ⟨"1", "A.patch", [fdNew "q"] ++ fdNew "f" :: [fdNew "f"]⟩ :: [])
      = compare codecHunks "f"
        ([] ++ ⟨"1", "A.patch", [fdNew "q"] ++ fdNew "f" :: []⟩ :: []) :=
  c10_first_match_only codecHunks "f" [] [] "1" "A.patch"
    [fdNew "q"] [fdNew "f"] [] (fdNew "f") (by decide) (by decide)

end PatchExplorer
